import Mathlib

/-!
Shallow embedding of the classification core of `YHapLZ.py` (and the matching
parts of `proYHapLZ.py`): the tree parser, ancestor/depth queries, the ISOGG
marker-index loader, the genotype-status resolver and the per-sample
classification algorithm.  Python dicts are modelled as insertion-ordered
association lists, Python strings as Lean `String`, Python floats (used only
for the confidence score) as exact rationals, and Python's `while` loop in
`get_ancestors` as a fuel-indexed recursion whose fuel bound is proved
sufficient.  Fallible operations (`dict[key]` subscripts that the source does
not guard by an `in` test) are threaded through `Except` so that the absence
of run-time errors is a provable statement rather than an artifact of the
embedding.
-/

namespace YHapLZ

/-! ### Python string primitives (over `List Char`) -/

/-- Characters stripped by Python's `str.strip()` (ASCII whitespace). -/
def isPySpace (c : Char) : Bool :=
  c = ' ' || c = '\t' || c = '\n' || c = '\r' || c = '\x0b' || c = '\x0c'

def trimChars (l : List Char) : List Char :=
  ((l.dropWhile isPySpace).reverse.dropWhile isPySpace).reverse

/-- Python `str.strip()` with no argument. -/
def pyStrip (s : String) : String := ⟨trimChars s.data⟩

/-- Python `str.split(c)` on a single-character separator (keeps empty parts). -/
def splitChar (c : Char) : List Char → List (List Char)
  | [] => [[]]
  | x :: xs =>
    if x = c then [] :: splitChar c xs
    else
      match splitChar c xs with
      | h :: t => (x :: h) :: t
      | [] => [[x]]

def pySplitC (c : Char) (s : String) : List String :=
  (splitChar c s.data).map fun l => ⟨l⟩

/-- Does `pre` occur at the front of `l`? -/
def leadsWith : List Char → List Char → Bool
  | [], _ => true
  | _ :: _, [] => false
  | p :: ps, x :: xs => p = x && leadsWith ps xs

/-- Python `sub in s` (substring containment). -/
def hasSubL (sub : List Char) : List Char → Bool
  | [] => leadsWith sub []
  | x :: xs => leadsWith sub (x :: xs) || hasSubL sub xs

def hasSub (s sub : String) : Bool := hasSubL sub.data s.data

/-- Python `s.split(sep)` on a multi-character (non-empty) separator
`c :: cs`.  The recursion is driven by explicit fuel so that the kernel can
evaluate it; each step consumes at least one character of the input, so
fuel `l.length` is always sufficient. -/
def splitSubGo (c : Char) (cs : List Char) : Nat → List Char → List (List Char)
  | _, [] => [[]]
  | 0, l => [l]  -- never reached from `splitSubL`
  | fuel + 1, x :: xs =>
    if leadsWith (c :: cs) (x :: xs) then
      [] :: splitSubGo c cs fuel ((x :: xs).drop (c :: cs).length)
    else
      match splitSubGo c cs fuel xs with
      | h :: t => (x :: h) :: t
      | [] => [[x]]

def splitSubL (c : Char) (cs : List Char) (l : List Char) : List (List Char) :=
  splitSubGo c cs l.length l

/-- Python `s.split(sep)`; an empty separator raises in Python and is never
used by the source, so it is mapped to the identity split. -/
def pySplitSub (sep s : String) : List String :=
  match sep.data with
  | [] => [s]
  | c :: cs => (splitSubL c cs s.data).map fun l => ⟨l⟩

/-- Python `str.lower()` (ASCII). -/
def pyLower (s : String) : String := ⟨s.data.map Char.toLower⟩

/-- Python `str.upper()` (ASCII). -/
def pyUpper (s : String) : String := ⟨s.data.map Char.toUpper⟩

/-- Python `str.rstrip('~^*')`: drop trailing `~`, `^`, `*`. -/
def pyRstripMarks (s : String) : String :=
  ⟨(s.data.reverse.dropWhile fun c => c = '~' || c = '^' || c = '*').reverse⟩

/-- Python `str.startswith(pre)`. -/
def pyStartswith (s pre : String) : Bool := leadsWith pre.data s.data

/-- Number of leading tab characters (the parser's indent measure). -/
def countTabs (s : String) : Nat := (s.data.takeWhile fun c => c = '\t').length

/-- Python `int(str)` on an already-stripped decimal literal:
optional sign followed by at least one digit (other `int()` input forms,
such as underscores, are not exercised by the repository's data paths). -/
def pyInt (s : String) : Option Int :=
  let l := trimChars s.data
  let core : List Char → Option Nat := fun ds =>
    if ds = [] || !ds.all Char.isDigit then none
    else some (ds.foldl (fun a c => a * 10 + (c.toNat - 48)) 0)
  match l with
  | '-' :: ds => (core ds).map fun n => -(n : Int)
  | '+' :: ds => (core ds).map fun n => (n : Int)
  | ds => (core ds).map fun n => (n : Int)

/-! ### Python dicts as insertion-ordered association lists -/

variable {α β : Type} [DecidableEq α]

/-- Dict lookup `d[k]` (first binding wins; keys are kept unique by `dset`). -/
def dlookup (d : List (α × β)) (k : α) : Option β :=
  match d with
  | [] => none
  | (k', v) :: t => if k' = k then some v else dlookup t k

/-- Dict assignment `d[k] = v`: replace the binding in place, or append a new one. -/
def dset (d : List (α × β)) (k : α) (v : β) : List (α × β) :=
  match d with
  | [] => [(k, v)]
  | (k', v') :: t => if k' = k then (k, v) :: t else (k', v') :: dset t k v

/-- Append `defaultdict(list)`-style: `d[k].append(v)`. -/
def dappend (d : List (α × List β)) (k : α) (v : β) : List (α × List β) :=
  match d with
  | [] => [(k, [v])]
  | (k', vs) :: t => if k' = k then (k, vs ++ [v]) :: t else (k', vs) :: dappend t k v

/-- Membership `k in d`. -/
def dhas (d : List (α × β)) (k : α) : Bool := (dlookup d k).isSome

/-! ### Genotype status (`class GenotypeStatus`) -/

inductive GenotypeStatus where
  | derived
  | ancestral
  | heterozygous
  | missing
  | mismatch
  deriving DecidableEq, Repr

/-- String form `str(status)` as used in the diagnostics record (the Python class stores
the statuses as these strings). -/
def statusStr : GenotypeStatus → String
  | .derived => "derived"
  | .ancestral => "ancestral"
  | .heterozygous => "het"
  | .missing => "missing"
  | .mismatch => "mismatch"

/-! ### `HaplogroupClassifier.check_genotype` (src/YHapLZ.py, lines 4541-4584)

The source returns from inside the forward/reverse match blocks; a block
that matches the expected alleles but none of the three zygosity flags falls
through to the shared "infer from VCF" chain at the end.  The embedding
computes the matched blocks as an `Option` and falls through on `none`. -/

def check_genotype (gt vcf_ref0 vcf_alt0 exp_ref exp_alt : String) : GenotypeStatus :=
  if gt = "./." || gt = "." || gt = "" then .missing
  else
    let vcf_ref := pyUpper vcf_ref0
    let vcf_alt := if vcf_alt0 ≠ "." then pyUpper vcf_alt0 else ""
    let is_het := gt = "0/1" || gt = "0|1" || gt = "1/0" || gt = "1|0"
    let is_hom_alt := gt = "1/1" || gt = "1|1" || gt = "1"
    let is_hom_ref := gt = "0/0" || gt = "0|0" || gt = "0"
    -- `if exp_ref and exp_alt:` (both non-empty)
    let explicit : Option GenotypeStatus :=
      if exp_ref ≠ "" && exp_alt ≠ "" then
        -- Forward match: VCF REF=ancestral, ALT=derived
        if vcf_ref = pyUpper exp_ref && vcf_alt = pyUpper exp_alt then
          if is_hom_alt then some .derived
          else if is_het then some .heterozygous
          else if is_hom_ref then some .ancestral
          else none
        -- Reverse match: VCF REF=derived, ALT=ancestral
        else if vcf_ref = pyUpper exp_alt && vcf_alt = pyUpper exp_ref then
          if is_hom_ref then some .derived
          else if is_het then some .heterozygous
          else if is_hom_alt then some .ancestral
          else none
        else none
      else none
    match explicit with
    | some st => st
    | none =>
      -- When no explicit info, infer from VCF
      if is_hom_alt then .derived
      else if is_het then .heterozygous
      else if is_hom_ref then .ancestral
      else .mismatch

/-- Method `HaplogroupClassifier.check_genotype` of src/proYHapLZ.py (lines 423-466);
the source text of the method is identical to the one in src/YHapLZ.py. -/
def check_genotype_pro (gt vcf_ref0 vcf_alt0 exp_ref exp_alt : String) : GenotypeStatus :=
  if gt = "./." || gt = "." || gt = "" then .missing
  else
    let vcf_ref := pyUpper vcf_ref0
    let vcf_alt := if vcf_alt0 ≠ "." then pyUpper vcf_alt0 else ""
    let is_het := gt = "0/1" || gt = "0|1" || gt = "1/0" || gt = "1|0"
    let is_hom_alt := gt = "1/1" || gt = "1|1" || gt = "1"
    let is_hom_ref := gt = "0/0" || gt = "0|0" || gt = "0"
    let explicit : Option GenotypeStatus :=
      if exp_ref ≠ "" && exp_alt ≠ "" then
        if vcf_ref = pyUpper exp_ref && vcf_alt = pyUpper exp_alt then
          if is_hom_alt then some .derived
          else if is_het then some .heterozygous
          else if is_hom_ref then some .ancestral
          else none
        else if vcf_ref = pyUpper exp_alt && vcf_alt = pyUpper exp_ref then
          if is_hom_ref then some .derived
          else if is_het then some .heterozygous
          else if is_hom_alt then some .ancestral
          else none
        else none
      else none
    match explicit with
    | some st => st
    | none =>
      if is_hom_alt then .derived
      else if is_het then .heterozygous
      else if is_hom_ref then .ancestral
      else .mismatch

/-! ### Class constants of `HaplogroupClassifier` (src/YHapLZ.py, lines 4317-4338) -/

def MAIN_BRANCHES : List String :=
  ["A", "B", "C", "D", "E", "G", "H", "I", "J", "L", "N", "O", "Q", "R", "T"]

def INTERMEDIATE_NODES : List String :=
  ["K", "NO", "NO1", "P", "P1", "LT", "F", "CF", "DE", "CT",
   "BT", "GHIJK", "HIJK", "IJK", "IJ", "A1b", "A1b1",
   "A0-T", "A00-T", "A000-T"]

def MAIN_BRANCH_DEFINING_SNPS : List (String × String) :=
  [("A", "L1085"), ("B", "M60"),
   ("C", "M130"), ("D", "M174"), ("E", "M96"),
   ("G", "M201"), ("H", "L901"), ("I", "M170"),
   ("J", "M304"), ("L", "M20"), ("N", "M231"),
   ("O", "M175"),
   ("Q", "M242"), ("R", "M207"), ("T", "M184")]

def F_DEFINING_SNP : String := "M89"

/-- Truthiness of the Python value held by an `Optional[bool]`
(`None` and `False` are falsy). -/
def pyTruthyB (o : Option Bool) : Bool := o = some true

/-- Truthiness of an optional string (`None` and `""` are falsy). -/
def pyTruthyS (o : Option String) : Bool :=
  match o with
  | none => false
  | some s => s ≠ ""

/-- Method `HaplogroupClassifier.is_derived` (src/YHapLZ.py, lines 4586-4602).
Returns `True`/`False`/`None`, modelled as `Option Bool`.  `het_mode` is the
raw configuration string, as in the source. -/
def is_derived (het_mode : String) (status : GenotypeStatus) : Option Bool :=
  if status = .derived then some true
  else if status = .ancestral then some false
  else if status = .heterozygous then
    if het_mode = "strict" then none
    else some true  -- moderate or lenient
  else none  -- MISSING or MISMATCH

/-- Wrapper for `self.is_derived(branch_direct_status.get(branch))`: the source sometimes
feeds `is_derived` the `None` that `dict.get` returns for an absent key; every
branch of `is_derived` then falls to the final `else`, giving `None`. -/
def is_derivedOpt (het_mode : String) (o : Option GenotypeStatus) : Option Bool :=
  match o with
  | some st => is_derived het_mode st
  | none => none

/-! ### `HaplogroupClassifier.get_main_branch` (src/YHapLZ.py, lines 4516-4539) -/

/-- The `for branch in self.MAIN_BRANCHES` loop of `get_main_branch`:
exact match, or prefix match followed by a digit (or end of string). -/
def mainBranchDirect (haplo : String) : List String → Option String
  | [] => none
  | branch :: rest =>
    if haplo = branch then some branch
    else if pyStartswith haplo branch && haplo.data.length > 1 then
      -- next_char = haplo[len(branch)] if len(haplo) > len(branch) else ''
      let next_char : Option Char :=
        if haplo.data.length > branch.data.length then haplo.data.get? branch.data.length
        else none  -- '' in the source
      let hit :=
        match next_char with
        | some c => c.isDigit
        | none => true  -- next_char == ''
      if hit then some branch else mainBranchDirect haplo rest
    else mainBranchDirect haplo rest

def get_main_branch (haplo : String) : Option String :=
  if haplo = "" then none  -- `if not haplo: return None`
  else
    match mainBranchDirect haplo MAIN_BRANCHES with
    | some b => some b
    | none =>
      if haplo ∈ INTERMEDIATE_NODES then none
      else
        -- first = haplo[0] (haplo is non-empty here)
        let first : String := ⟨haplo.data.take 1⟩
        if first ∈ MAIN_BRANCHES then some first
        else none

/-! ### `HaplogroupClassifier._parse_tree` (src/YHapLZ.py, lines 4366-4422)

The Python stack keeps its top at the end of the list; the embedding keeps
the top at the head (push is `cons`, the pop loop is `dropWhile`). -/

structure ParseSt where
  phylo_tree : List (String × String)      -- child -> parent
  node_snps : List (String × List String)  -- node -> snp list
  stack : List (Nat × String)              -- path stack, top first
  deriving DecidableEq, Repr

def initParseSt : ParseSt := ⟨[], [], []⟩

/-- SNP extraction from `parts[1]`: split on `,`, skip parenthesised groups,
split each part on `/`, strip `~^*`. -/
def extractSnps (snp_text : String) : List String :=
  (pySplitC ',' snp_text).foldl
    (fun acc snp_part0 =>
      let snp_part := pyStrip snp_part0
      if snp_part ≠ "" && !pyStartswith snp_part "(" then
        acc ++ ((pySplitC '/' snp_part).foldl
          (fun acc2 alias0 =>
            let al := pyRstripMarks (pyStrip alias0)
            if al ≠ "" then acc2 ++ [al] else acc2)
          [])
      else acc)
    []

/-- The guard chain at the top of the `for line in lines` loop body of
`_parse_tree` (`if not line.strip(): continue`, the `len(parts) < 1` check,
and the root/invalid-line skip); `none` models a `continue`, `some name`
the node name `parts[0].strip()` of a processed line. -/
def lineNameOf (line : String) : Option String :=
  if pyStrip line = "" then none
  else
    let parts := pySplitC '\t' (pyStrip line)
    if parts.length < 1 then none
    else
      let node_name := pyStrip (parts.headD "")
      if node_name = "Y" || node_name = "Root" || node_name = "" ||
         hasSub (pyLower node_name) "see " then none
      else some node_name

/-- The state update of a processed line: record the SNPs, pop the path
stack to below this line's indent, bind the node to the resulting stack top
(its parent) when one exists, and push the node. -/
def parseTreeStep (st : ParseSt) (indent : Nat) (node_name : String)
    (snps : List String) : ParseSt :=
  ⟨match ((st.stack.dropWhile fun pr => pr.1 ≥ indent).head?) with
    | some (_, parent) => dset st.phylo_tree node_name parent
    | none => st.phylo_tree,
   dset st.node_snps node_name snps,
   (indent, node_name) :: st.stack.dropWhile fun pr => pr.1 ≥ indent⟩

/-- One iteration of the `for line in lines` loop of `_parse_tree`. -/
def parseTreeLine (st : ParseSt) (line : String) : ParseSt :=
  match lineNameOf line with
  | none => st  -- one of the `continue` guards fired
  | some node_name =>
    let parts := pySplitC '\t' (pyStrip line)
    parseTreeStep st (countTabs line) node_name
      (if parts.length ≥ 2 then extractSnps (pyStrip (parts.getD 1 "")) else [])

/-- Body of `_parse_tree` on the decoded line list (`tree_text.strip().split('\n')`). -/
def parseTreeLines (lines : List String) : ParseSt :=
  lines.foldl parseTreeLine initParseSt

/-- Method `HaplogroupClassifier._parse_tree` on the raw tree text; returns
`(phylo_tree, node_snps)`. -/
def parse_tree (tree_text : String) : List (String × String) × List (String × List String) :=
  let st := parseTreeLines (pySplitC '\n' (pyStrip tree_text))
  (st.phylo_tree, st.node_snps)

/-- Names of the lines that `_parse_tree` does not skip, in processing
order (used to state the distinct-names hypothesis). -/
def processedNames (lines : List String) : List String :=
  lines.filterMap lineNameOf

/-! ### `get_ancestors` / `get_depth` (src/YHapLZ.py, lines 4498-4514)

`get_ancestors` is a `while` loop; the embedding gives the loop explicit
fuel and runs it with fuel `phylo_tree.length + 1`, which theorem
`getAncestorsLoop_fuel_irrelevant` below proves is beyond the number of
iterations the loop can make. -/

/-- The loop body of `get_ancestors`:
`while current in self.phylo_tree and current not in seen:` — each pass
appends `parent = phylo_tree[current]` to the result and advances. -/
def getAncestorsLoop (phylo_tree : List (String × String)) :
    Nat → String → List String → List String
  | 0, _, _ => []
  | fuel + 1, current, seen =>
    match dlookup phylo_tree current with
    | none => []
    | some parent =>
      if current ∈ seen then []
      else parent :: getAncestorsLoop phylo_tree fuel parent (current :: seen)

def get_ancestors (phylo_tree : List (String × String)) (node : String) : List String :=
  getAncestorsLoop phylo_tree (phylo_tree.length + 1) node []

def get_depth (phylo_tree : List (String × String)) (node : String) : Nat :=
  (get_ancestors phylo_tree node).length

/-! ### `HaplogroupClassifier._load_isogg` (src/YHapLZ.py, lines 4424-4469)

The file handle is external input; the embedding takes the header line and
the remaining lines as data.  `sep = '\t' if '\t' in header else ','`. -/

structure IsoggRow where
  snp_name : String
  haplo : String
  aliasField : String  -- parts[2] (split on ';' when processing aliases)
  pos : Int
  ref : String
  alt : String
  deriving DecidableEq, Repr

/-- The guard chain at the top of the `for line in f` loop body; `none`
models a `continue`. -/
def parseIsoggRow (sep : Char) (line : String) : Option IsoggRow :=
  let parts := pySplitC sep (pyStrip line)
  if parts.length < 7 then none
  else
    let snp_name := pyRstripMarks (pyStrip (parts.getD 0 ""))
    let haplo := pyRstripMarks (pyStrip (parts.getD 1 ""))
    let pos_str := pyStrip (parts.getD 4 "")
    let mutation := if parts.length > 6 then pyStrip (parts.getD 6 "") else ""
    if pos_str = "" || hasSub pos_str ".." then none
    else
      match pyInt pos_str with
      | none => none
      | some pos =>
        -- `if '->' in mutation: ref, alt = mutation.split('->')[:2]`
        let ra : String × String :=
          if hasSub mutation "->" then
            let ps := pySplitSub "->" mutation
            (pyUpper (pyStrip (ps.getD 0 "")), pyUpper (pyStrip (ps.getD 1 "")))
          else ("", "")
        some ⟨snp_name, haplo, parts.getD 2 "", pos, ra.1, ra.2⟩

structure IsoggSt where
  snp_to_info : List (String × (Int × String × String))
  pos_to_haplo : List (Int × List (String × String × String × String))
  count : Nat
  deriving DecidableEq, Repr

def initIsoggSt : IsoggSt := ⟨[], [], 0⟩

/-- The `for alt_name in parts[2].split(';')` body: an alias is only
assigned when `alt_name not in self.snp_to_info` (first-seen wins). -/
def isoggAliasStep (pos : Int) (ref alt : String) (s : IsoggSt) (alt_name0 : String) :
    IsoggSt :=
  let alt_name := pyRstripMarks (pyStrip alt_name0)
  if alt_name ≠ "" && !dhas s.snp_to_info alt_name then
    { s with snp_to_info := dset s.snp_to_info alt_name (pos, ref, alt) }
  else s

/-- One iteration of the `for line in f` loop of `_load_isogg`.  Note the
asymmetry the source has: the primary name is assigned unconditionally
(`self.snp_to_info[snp_name] = ...`, overwriting any earlier binding), while
an alias is only assigned when absent (`isoggAliasStep`). -/
def loadIsoggLine (sep : Char) (st : IsoggSt) (line : String) : IsoggSt :=
  match parseIsoggRow sep line with
  | none => st
  | some r =>
    let st1 : IsoggSt :=
      { snp_to_info := dset st.snp_to_info r.snp_name (r.pos, r.ref, r.alt),
        pos_to_haplo := dappend st.pos_to_haplo r.pos (r.haplo, r.snp_name, r.ref, r.alt),
        count := st.count + 1 }
    -- `if len(parts) > 2:` holds here (len ≥ 7); process aliases
    (pySplitC ';' r.aliasField).foldl (isoggAliasStep r.pos r.ref r.alt) st1

/-- Method `_load_isogg`: the header line fixes the separator, then the line loop. -/
def load_isogg (header : String) (lines : List String) : IsoggSt :=
  let sep : Char := if hasSub header "\t" then '\t' else ','
  lines.foldl (loadIsoggLine sep) initIsoggSt

/-! ### `HaplogroupClassifier.classify_sample` (src/YHapLZ.py, lines 4658-4945)

The sample genotype map (`sample_geno`) is an externally supplied dict that
is only ever looked up, so it is modelled as `Int → Option Geno`.  The dicts
the method itself builds are association lists as above.  The embedding
factors the method's step blocks into named helpers whose data flow matches
the source exactly. -/

/-- One entry of a sample genotype map: `(gt, vcf_ref, vcf_alt)`. -/
abbrev Geno := String × String × String

/-- One entry of `pos_to_haplo[pos]`: `(haplo, snp_name, ref, alt)`. -/
abbrev HaploEntry := String × String × String × String

/-- A per-node evidence record of `all_node_status` (the `'missing'` list is
initialised by the source but never appended to inside `classify_sample`). -/
structure NodeStatus where
  derived : List String
  ancestral : List String
  het : List String
  missing : List String
  deriving DecidableEq, Repr

def emptyNodeStatus : NodeStatus := ⟨[], [], [], []⟩

def recordStatus (ns : NodeStatus) (status : GenotypeStatus) (snp : String) : NodeStatus :=
  match status with
  | .derived => { ns with derived := ns.derived ++ [snp] }
  | .ancestral => { ns with ancestral := ns.ancestral ++ [snp] }
  | .heterozygous => { ns with het := ns.het ++ [snp] }
  | _ => ns

/-- In-place value update of a present key (used for the
`all_node_status[haplo][...].append(...)` mutations). -/
def dmodify {α β : Type} [DecidableEq α] (d : List (α × β)) (k : α) (f : β → β) :
    List (α × β) :=
  match d with
  | [] => []
  | (k', v) :: t => if k' = k then (k, f v) :: t else (k', v) :: dmodify t k f

/-- State threaded through Step 1: `(het_count, all_node_status, derived_haplos)`. -/
abbrev Step1St := Nat × List (String × NodeStatus) × List (String × List (String × Int))

/-- The `for haplo, snp_name, ref, alt in entries` body of Step 1. -/
def step1Entry (het_mode : String) (gt vcf_ref vcf_alt : String) (pos : Int)
    (p : List (String × NodeStatus) × List (String × List (String × Int)))
    (e : HaploEntry) :
    List (String × NodeStatus) × List (String × List (String × Int)) :=
  let (haplo, snp_name, ref, alt) := e
  let status := check_genotype gt vcf_ref vcf_alt ref alt
  -- `if haplo not in all_node_status:` initialise the record
  let ans0 := if !dhas p.1 haplo then p.1 ++ [(haplo, emptyNodeStatus)] else p.1
  let ans1 := dmodify ans0 haplo fun ns => recordStatus ns status snp_name
  let dh :=
    if pyTruthyB (is_derived het_mode status) then
      dappend p.2 haplo (snp_name, pos)
    else p.2
  (ans1, dh)

/-- The `for pos, entries in self.pos_to_haplo.items()` body of Step 1. -/
def step1Pos (het_mode : String) (sample_geno : Int → Option Geno)
    (acc : Step1St) (pe : Int × List HaploEntry) : Step1St :=
  match sample_geno pe.1 with
  | none => acc  -- `if pos not in sample_geno: continue`
  | some (gt, vcf_ref, vcf_alt) =>
    let het_count :=
      if gt = "0/1" || gt = "0|1" || gt = "1/0" || gt = "1|0" then acc.1 + 1 else acc.1
    let inner :=
      pe.2.foldl (step1Entry het_mode gt vcf_ref vcf_alt pe.1) (acc.2.1, acc.2.2)
    (het_count, inner.1, inner.2)

/-- Step 1 (lines 4668-4704): collect per-node evidence and derived support
for every position shared between `pos_to_haplo` and the sample map. -/
def step1 (het_mode : String) (pos_to_haplo : List (Int × List HaploEntry))
    (sample_geno : Int → Option Geno) : Step1St :=
  pos_to_haplo.foldl (step1Pos het_mode sample_geno) (0, [], [])

/-- A candidate record of `branch_candidates[branch]`
(`{'haplo': ..., 'n_snps': ..., 'snps': ..., 'depth': ...}`). -/
structure Cand where
  haplo : String
  n_snps : Nat
  snps : List String
  depth : Nat
  deriving DecidableEq, Repr

/-- Step 2 (lines 4715-4725): group the derived haplogroups by main branch. -/
def step2 (phylo_tree : List (String × String))
    (derived_haplos : List (String × List (String × Int))) :
    List (String × List Cand) :=
  derived_haplos.foldl
    (fun bc hv =>
      let branch := get_main_branch hv.1
      if pyTruthyS branch then
        dappend bc (branch.getD "")
          ⟨hv.1, hv.2.length, hv.2.map (·.1), get_depth phylo_tree hv.1⟩
      else bc)
    []

/-- Lines 4737-4749: the direct status of every main branch's defining SNP. -/
def branchDirectStatus (snp_to_info : List (String × (Int × String × String)))
    (sample_geno : Int → Option Geno) : List (String × GenotypeStatus) :=
  MAIN_BRANCHES.map fun branch =>
    match dlookup MAIN_BRANCH_DEFINING_SNPS branch with  -- `.get(branch)`
    | some snp =>
      if snp ≠ "" then  -- `if snp and snp in self.snp_to_info:`
        match dlookup snp_to_info snp with
        | some (pos, ref, alt) =>
          match sample_geno pos with
          | some (gt, vcf_ref, vcf_alt) =>
            (branch, check_genotype gt vcf_ref vcf_alt ref alt)
          | none => (branch, .missing)
        | none => (branch, .missing)
      else (branch, .missing)
    | none => (branch, .missing)

/-- Lines 4756-4761: pick the first main branch whose defining SNP is
derived and which has candidates.  The subscript
`self.MAIN_BRANCH_DEFINING_SNPS[branch]` in the note f-string is the one
unguarded dict access of `classify_sample`, so this helper is the one place
the embedding can produce a `KeyError`. -/
def findDirectBranch (het_mode : String) (bds : List (String × GenotypeStatus))
    (bc : List (String × List Cand)) : List String → Except String (Option (String × String))
  | [] => .ok none
  | branch :: rest =>
    if pyTruthyB (is_derivedOpt het_mode (dlookup bds branch)) && dhas bc branch then
      match dlookup MAIN_BRANCH_DEFINING_SNPS branch with
      | some snp => .ok (some (branch, snp ++ " derived"))
      | none => .error "KeyError: MAIN_BRANCH_DEFINING_SNPS"
    else findDirectBranch het_mode bds bc rest

/-- Lines 4764-4785: infer the branch with the most downstream derived SNPs,
excluding branches whose defining SNP is explicitly ancestral. -/
def inferredBranch (bds : List (String × GenotypeStatus))
    (bc : List (String × List Cand)) : Option (String × Nat) :=
  let excluded := (bds.filter fun p => p.2 = .ancestral).map (·.1)
  let best :=
    bc.foldl
      (fun (best : Option String × Nat) p =>
        if p.1 ∈ excluded then best
        else
          let total := (p.2.map (·.n_snps)).sum
          if total > best.2 then (some p.1, total) else best)
      (none, 0)
  -- `if best_branch:`
  if pyTruthyS best.1 then some (best.1.getD "", best.2) else none

/-- Lines 4789-4802: basal-F detection; on success also installs the
synthetic `'F'` candidate list into `branch_candidates`. -/
def basalF (het_mode : String) (snp_to_info : List (String × (Int × String × String)))
    (sample_geno : Int → Option Geno) (bc : List (String × List Cand)) :
    Option (String × String × List (String × List Cand)) :=
  match dlookup snp_to_info F_DEFINING_SNP with  -- `if ... in self.snp_to_info:`
  | none => none
  | some (f_pos, f_ref, f_alt) =>
    match sample_geno f_pos with  -- `if f_pos in sample_geno:`
    | none => none
    | some (gt, vcf_ref, vcf_alt) =>
      let f_status := check_genotype gt vcf_ref vcf_alt f_ref f_alt
      if pyTruthyB (is_derived het_mode f_status) then
        let bc' :=
          if !dhas bc "F" then dset bc "F" [⟨"F", 1, ["M89"], 0⟩] else bc
        some ("F", "basal F (M89 derived, no downstream)", bc')
      else none

/-! #### Step 4 (lines 4810-4883): deepest node with ancestor-chain checks -/

/-- Python's stable `candidates.sort(key=lambda x: (x['depth'], x['n_snps']),
reverse=True)`: descending lexicographic order on the key, equal keys keep
their original relative order. -/
def candKeyGE (a b : Cand) : Bool :=
  a.depth > b.depth || (a.depth = b.depth && a.n_snps ≥ b.n_snps)

def insertDesc (c : Cand) : List Cand → List Cand
  | [] => [c]
  | d :: t => if candKeyGE c d then c :: d :: t else d :: insertDesc c t

def sortCandidates (cands : List Cand) : List Cand :=
  cands.foldr insertDesc []

/-- Lines 4829-4834: the ancestors checked for a candidate — walk the chain,
stop at the main branch, keep ancestors belonging to the main branch. -/
def relevantAncestors (phylo_tree : List (String × String)) (main_branch haplo : String) :
    List String :=
  ((get_ancestors phylo_tree haplo).takeWhile fun anc => anc ≠ main_branch).filter
    fun anc =>
      -- `if self.get_main_branch(anc) == main_branch or anc == main_branch:`
      (match get_main_branch anc with
       | some b => b = main_branch
       | none => false) || anc = main_branch

/-- Lines 4840-4854: the recorded conflicts of one candidate's checked
ancestor chain (empty iff `chain_valid` stays true). -/
def conflictsOf (het_mode : String) (all_node_status : List (String × NodeStatus))
    (phylo_tree : List (String × String)) (main_branch haplo : String) : List String :=
  (relevantAncestors phylo_tree main_branch haplo).foldl
    (fun confs anc =>
      match dlookup all_node_status anc with
      | none => confs
      | some info =>
        let has_derived := info.derived.length > 0
        let has_ancestral := info.ancestral.length > 0
        let has_het := info.het.length > 0
        if has_ancestral && !has_derived then
          if has_het && (het_mode = "moderate" || het_mode = "lenient") then
            confs  -- acceptable but marked
          else confs ++ [anc ++ "(ancestral)"]
        else confs)
    []

/-- The candidate loop (lines 4824-4862): accept the first candidate with a
valid chain, collecting the conflicts of the rejected prefix. -/
def mainLoop (het_mode : String) (all_node_status : List (String × NodeStatus))
    (phylo_tree : List (String × String)) (main_branch : String) :
    List Cand → Option Cand × List String
  | [] => (none, [])
  | c :: cs =>
    let confs := conflictsOf het_mode all_node_status phylo_tree main_branch c.haplo
    if confs = [] then (some c, [])
    else
      let rest := mainLoop het_mode all_node_status phylo_tree main_branch cs
      (rest.1, confs ++ rest.2)

/-- Lines 4872-4877: the fallback's conflict count — every ancestor in the
full chain (no branch restriction, no heterozygous leniency) that is
ancestral-supported and not derived-supported, with multiplicity. -/
def fallbackConflictCount (all_node_status : List (String × NodeStatus))
    (phylo_tree : List (String × String)) (haplo : String) : Nat :=
  ((get_ancestors phylo_tree haplo).filter fun anc =>
    match dlookup all_node_status anc with
    | some info => info.ancestral ≠ [] && info.derived = []
    | none => false).length

/-- One iteration of the fallback re-evaluation loop: `min_conflicts`
starts at `float('inf')` (modelled as `none`); only a strict improvement
replaces the best candidate. -/
def fallbackStep (all_node_status : List (String × NodeStatus))
    (phylo_tree : List (String × String))
    (st : (String × Nat × List String) × Option Nat) (c : Cand) :
    (String × Nat × List String) × Option Nat :=
  let cc := fallbackConflictCount all_node_status phylo_tree c.haplo
  let better := match st.2 with | none => true | some m => decide (cc < m)
  if better then ((c.haplo, c.n_snps, c.snps.take 5), some cc) else st

/-- Lines 4865-4883: re-evaluate all candidates and keep the one with the
fewest fallback conflicts. -/
def fallbackLoop (all_node_status : List (String × NodeStatus))
    (phylo_tree : List (String × String)) (cands : List Cand)
    (init : String × Nat × List String) : String × Nat × List String :=
  (cands.foldl (fallbackStep all_node_status phylo_tree) (init, none)).1

/-- The whole Step 4 block: returns
`(best_haplo, best_n_snps, best_evidence, ancestor_conflicts)`. -/
def step4 (het_mode : String) (phylo_tree : List (String × String))
    (all_node_status : List (String × NodeStatus)) (main_branch : String)
    (candidates : List Cand) : String × Nat × List String × List String :=
  let sorted := sortCandidates candidates
  let lp := mainLoop het_mode all_node_status phylo_tree main_branch sorted
  let best : String × Nat × List String :=
    match lp.1 with
    | some c => (c.haplo, c.n_snps, c.snps.take 5)
    | none => (main_branch, 0, [])
  -- `if best_haplo == main_branch and candidates:`
  let best' :=
    if best.1 = main_branch && candidates ≠ [] then
      fallbackLoop all_node_status phylo_tree sorted best
    else best
  (best'.1, best'.2.1, best'.2.2, lp.2)

/-- Step 5 (lines 4888-4916): the confidence formula, in exact rationals. -/
def computeConfidence (direct_derived : Bool) (best_n_snps : Nat)
    (has_conflicts : Bool) (het_count : Nat) : ℚ :=
  let base : ℚ :=
    if direct_derived then
      if best_n_snps ≥ 5 then 0.95
      else if best_n_snps ≥ 3 then 0.90
      else 0.85
    else
      if best_n_snps ≥ 10 then 0.85
      else if best_n_snps ≥ 5 then 0.75
      else if best_n_snps ≥ 3 then 0.65
      else 0.50
  let c1 := if has_conflicts then base - 0.15 else base
  let c2 := if het_count > 10 then c1 - 0.05 else c1
  max 0 (min 1 c2)

/-- The diagnostics dict built at lines 4919-4925. -/
structure Diagnostics where
  main_branch_status : String
  main_branch_note : String
  ancestor_conflicts : List String
  total_derived_haplos : Nat
  candidates_in_branch : Nat
  deriving DecidableEq, Repr

/-- A Classification Result (`_make_result`, lines 4932-4945); the early
`Unknown` returns pass the empty dict `{}` as diagnostics, modelled as
`none`. -/
structure ClassifyResult where
  sample : String
  main_branch : String
  haplogroup : String
  n_snps : Nat
  confidence : ℚ
  het_count : Nat
  evidence : List String
  note : String
  diagnostics : Option Diagnostics
  deriving DecidableEq, Repr

def make_result (sample main_branch haplo : String) (n_snps : Nat) (confidence : ℚ)
    (het_count : Nat) (evidence : List String) (note : String)
    (diagnostics : Option Diagnostics) : ClassifyResult :=
  ⟨sample, main_branch, haplo, n_snps, confidence, het_count, evidence, note, diagnostics⟩

/-- Method `HaplogroupClassifier.classify_sample`.  The classifier state built at
startup (`phylo_tree`, `snp_to_info`, `pos_to_haplo`, `het_mode`) is passed
explicitly; the result is `Except` so that the unguarded dict subscript in
the main-branch note (see `findDirectBranch`) is an honest possible error. -/
def classify_sample (phylo_tree : List (String × String))
    (snp_to_info : List (String × (Int × String × String)))
    (pos_to_haplo : List (Int × List HaploEntry))
    (het_mode : String) (sample : String) (sample_geno : Int → Option Geno) :
    Except String ClassifyResult :=
  let s1 := step1 het_mode pos_to_haplo sample_geno
  let het_count := s1.1
  let all_node_status := s1.2.1
  let derived_haplos := s1.2.2
  if derived_haplos = [] then
    .ok (make_result sample "Unknown" "Unknown" 0 0 het_count [] "No derived SNPs" none)
  else
    let bc0 := step2 phylo_tree derived_haplos
    if bc0 = [] then
      .ok (make_result sample "Unknown" "Unknown" 0 0 het_count []
        "Cannot determine main branch" none)
    else
      let bds := branchDirectStatus snp_to_info sample_geno
      match findDirectBranch het_mode bds bc0 MAIN_BRANCHES with
      | .error e => .error e
      | .ok direct =>
        -- paths 2 and 3 only run when path 1 produced nothing
        let sel : Option (String × String) × List (String × List Cand) :=
          match direct with
          | some bn => (some bn, bc0)
          | none =>
            match inferredBranch bds bc0 with
            | some (b, cnt) =>
              (some (b, "inferred from " ++ toString cnt ++ " downstream SNPs"), bc0)
            | none =>
              match basalF het_mode snp_to_info sample_geno bc0 with
              | some (b, note, bc') => (some (b, note), bc')
              | none => (none, bc0)
        match sel.1 with
        | none =>
          .ok (make_result sample "Unknown" "Unknown" 0 0 het_count []
            "Cannot determine main branch（Insufficient or conflicting evidence）" none)
        | some (main_branch, main_branch_note) =>
          let candidates := (dlookup sel.2 main_branch).getD []  -- defaultdict access
          let s4 := step4 het_mode phylo_tree all_node_status main_branch candidates
          let best_haplo := s4.1
          let best_n_snps := s4.2.1
          let best_evidence := s4.2.2.1
          let ancestor_conflicts := s4.2.2.2
          let direct_status := (dlookup bds main_branch).getD .missing
          let confidence :=
            computeConfidence (pyTruthyB (is_derived het_mode direct_status))
              best_n_snps (ancestor_conflicts ≠ []) het_count
          let diagnostics : Diagnostics :=
            { main_branch_status := statusStr direct_status,
              main_branch_note := main_branch_note,
              -- `ancestor_conflicts[:3] if ancestor_conflicts else []`
              ancestor_conflicts := ancestor_conflicts.take 3,
              total_derived_haplos := derived_haplos.length,
              candidates_in_branch := candidates.length }
          .ok (make_result sample main_branch best_haplo best_n_snps confidence
            het_count best_evidence "" (some diagnostics))

/-! ## Association-list lemmas -/

theorem dlookup_dset_self {α β : Type} [DecidableEq α] (d : List (α × β)) (k : α) (v : β) :
    dlookup (dset d k v) k = some v := by
  induction d with
  | nil => simp [dset, dlookup]
  | cons p t ih =>
    obtain ⟨k', v'⟩ := p
    by_cases h : k' = k <;> simp [dset, dlookup, h, ih]

theorem dlookup_dset_ne {α β : Type} [DecidableEq α] (d : List (α × β)) (k a : α) (v : β)
    (h : a ≠ k) : dlookup (dset d k v) a = dlookup d a := by
  induction d with
  | nil => simp [dset, dlookup, Ne.symm h]
  | cons p t ih =>
    obtain ⟨k', v'⟩ := p
    by_cases hk : k' = k
    · subst hk
      simp [dset, dlookup, Ne.symm h]
    · by_cases ha : k' = a
      · subst ha
        simp [dset, dlookup, hk, h]
      · simp [dset, dlookup, hk, ha, ih]

theorem dlookup_mem {α β : Type} [DecidableEq α] (d : List (α × β)) (k : α) (v : β)
    (h : dlookup d k = some v) : (k, v) ∈ d := by
  induction d with
  | nil => simp [dlookup] at h
  | cons p t ih =>
    obtain ⟨k', v'⟩ := p
    by_cases hk : k' = k
    · subst hk
      have h2 : v' = v := by simpa [dlookup] using h
      rw [← h2]
      exact List.mem_cons_self _ _
    · simp only [dlookup, if_neg hk] at h
      exact List.mem_cons_of_mem _ (ih h)

theorem dset_of_absent {α β : Type} [DecidableEq α] (d : List (α × β)) (k : α) (v : β)
    (h : dlookup d k = none) : dset d k v = d ++ [(k, v)] := by
  induction d with
  | nil => simp [dset]
  | cons p t ih =>
    obtain ⟨k', v'⟩ := p
    by_cases hk : k' = k
    · simp [dlookup, hk] at h
    · simp only [dlookup, if_neg hk] at h
      simp [dset, hk, ih h]

/-! ## C7: orientation symmetry of the genotype resolver -/

/-- C7: with expected ancestral `A` and derived `G`, `check_genotype`
returns `Derived` both for a homozygous-alt call observed as ref `A` / alt
`G` (forward orientation) and for a homozygous-ref call observed as ref `G`
/ alt `A` (reversed orientation), for every encoding of the two zygosities. -/
theorem C7_orientation_symmetry :
    check_genotype "1/1" "A" "G" "A" "G" = .derived ∧
    check_genotype "1|1" "A" "G" "A" "G" = .derived ∧
    check_genotype "1" "A" "G" "A" "G" = .derived ∧
    check_genotype "0/0" "G" "A" "A" "G" = .derived ∧
    check_genotype "0|0" "G" "A" "A" "G" = .derived ∧
    check_genotype "0" "G" "A" "A" "G" = .derived := by decide

/-! ## C10: the two classifiers' genotype resolvers agree -/

/-- C10: `check_genotype` of src/YHapLZ.py and `check_genotype` of
src/proYHapLZ.py are extensionally equal: the same status for every input
`(gt, vcf_ref, vcf_alt, exp_ref, exp_alt)`. -/
theorem C10_check_genotype_equivalent (gt vcf_ref vcf_alt exp_ref exp_alt : String) :
    check_genotype gt vcf_ref vcf_alt exp_ref exp_alt =
      check_genotype_pro gt vcf_ref vcf_alt exp_ref exp_alt := rfl

/-! ## C6: the Step D confidence formula -/

/-- The confidence computation as §4.4 Step D of the spec words it:
a base picked by direct-support tier and supporting count, minus the sum of
the two penalties, clamped to `[0, 1]`. -/
def specStepDConfidence (direct_derived : Bool) (n : Nat) (conflict : Bool)
    (het : Nat) : ℚ :=
  let base : ℚ :=
    if direct_derived then
      if 5 ≤ n then 0.95 else if 3 ≤ n then 0.90 else 0.85
    else
      if 10 ≤ n then 0.85 else if 5 ≤ n then 0.75 else if 3 ≤ n then 0.65 else 0.50
  let penalties : ℚ := (if conflict then 0.15 else 0) + (if 10 < het then 0.05 else 0)
  min 1 (max 0 (base - penalties))

/-- C6: the confidence used by `classify_sample` is exactly the Step D
formula: tiered base (0.95/0.90/0.85 when the selected branch's defining SNP
resolved derived, else 0.85/0.75/0.65/0.50 by count), minus 0.15 for a
recorded ancestor conflict and 0.05 for more than 10 heterozygous calls,
clamped to `[0, 1]`. -/
theorem C6_confidence_formula (direct_derived : Bool) (n : Nat) (conflict : Bool)
    (het : Nat) :
    computeConfidence direct_derived n conflict het =
      specStepDConfidence direct_derived n conflict het := by
  unfold computeConfidence specStepDConfidence
  rcases direct_derived <;> rcases conflict <;>
    simp only [Bool.false_eq_true, if_false, if_true] <;>
    split_ifs <;> norm_num [min_def, max_def]

/-! ## C3: duplicate marker definitions in the reference index -/

/-- C3 counterexample: two rows that define the same primary marker name
`M1` with conflicting (position, ancestral, derived) tuples.  After loading,
`snp_to_info['M1']` holds the *second* row's tuple `(200, C, T)` — the
later conflicting definition overwrote the first-seen one `(100, A, G)`,
contradicting the claimed first-seen-wins rule. -/
theorem C3_counterexample :
    dlookup (load_isogg "Name\tHaplogroup\tAlt\trs\tPos\tX\tMutation"
        ["M1\tH1\t\t\t100\t\tA->G", "M1\tH2\t\t\t200\t\tC->T"]).snp_to_info "M1" =
      some (200, "C", "T") ∧
    dlookup (load_isogg "Name\tHaplogroup\tAlt\trs\tPos\tX\tMutation"
        ["M1\tH1\t\t\t100\t\tA->G", "M1\tH2\t\t\t200\t\tC->T"]).snp_to_info "M1" ≠
      some (100, "A", "G") := by decide

theorem isoggAliasFold_preserves (pos : Int) (ref alt : String) :
    ∀ (ls : List String) (s : IsoggSt) (a : String) (v : Int × String × String),
      dlookup s.snp_to_info a = some v →
      dlookup ((ls.foldl (isoggAliasStep pos ref alt) s)).snp_to_info a = some v := by
  intro ls
  induction ls with
  | nil => intro s a v h; exact h
  | cons x t ih =>
    intro s a v h
    rw [List.foldl_cons]
    apply ih
    unfold isoggAliasStep
    by_cases hc : (pyRstripMarks (pyStrip x) ≠ "" &&
        !dhas s.snp_to_info (pyRstripMarks (pyStrip x))) = true
    · rw [if_pos hc]
      have hna : pyRstripMarks (pyStrip x) ≠ a := by
        intro he
        have hh : dhas s.snp_to_info (pyRstripMarks (pyStrip x)) = true := by
          rw [he]; simp [dhas, h]
        simp [hh] at hc
      simpa [dlookup_dset_ne _ _ _ _ (Ne.symm hna)] using h
    · rw [if_neg hc]
      exact h

/-- C3 amended: the update discipline `_load_isogg` actually implements.
For every successfully parsed row: the primary name is (re)bound to the
row's tuple even when an earlier conflicting definition exists (last-write
wins), while every binding under any *other* key — in particular every
previously recorded alias — survives unchanged (first-seen wins only for
aliases). -/
theorem C3_amended (sep : Char) (st : IsoggSt) (line : String) (r : IsoggRow)
    (h : parseIsoggRow sep line = some r) :
    dlookup (loadIsoggLine sep st line).snp_to_info r.snp_name =
      some (r.pos, r.ref, r.alt) ∧
    ∀ a v, a ≠ r.snp_name → dlookup st.snp_to_info a = some v →
      dlookup (loadIsoggLine sep st line).snp_to_info a = some v := by
  unfold loadIsoggLine
  rw [h]
  constructor
  · exact isoggAliasFold_preserves _ _ _ _ _ _ _ (dlookup_dset_self _ _ _)
  · intro a v ha hv
    exact isoggAliasFold_preserves _ _ _ _ _ _ _
      ((dlookup_dset_ne _ _ _ _ ha).trans hv)

/-- Witness for `C3_amended` at a concrete row and a concrete pre-state
holding a binding for another key. -/
theorem C3_amended_witness :
    parseIsoggRow '\t' "M1\tH1\t\t\t100\t\tA->G" =
      some ⟨"M1", "H1", "", 100, "A", "G"⟩ ∧
    ("OLD" : String) ≠ "M1" ∧
    dlookup (⟨[("OLD", ((5 : Int), "A", "C"))], [], 0⟩ : IsoggSt).snp_to_info "OLD" =
      some (5, "A", "C") ∧
    dlookup (loadIsoggLine '\t' ⟨[("OLD", ((5 : Int), "A", "C"))], [], 0⟩
        "M1\tH1\t\t\t100\t\tA->G").snp_to_info "M1" = some (100, "A", "G") ∧
    dlookup (loadIsoggLine '\t' ⟨[("OLD", ((5 : Int), "A", "C"))], [], 0⟩
        "M1\tH1\t\t\t100\t\tA->G").snp_to_info "OLD" = some (5, "A", "C") :=
  ⟨by decide, by decide, by decide,
   (C3_amended '\t' ⟨[("OLD", ((5 : Int), "A", "C"))], [], 0⟩ "M1\tH1\t\t\t100\t\tA->G"
      ⟨"M1", "H1", "", 100, "A", "G"⟩ (by decide)).1,
   (C3_amended '\t' ⟨[("OLD", ((5 : Int), "A", "C"))], [], 0⟩ "M1\tH1\t\t\t100\t\tA->G"
      ⟨"M1", "H1", "", 100, "A", "G"⟩ (by decide)).2 "OLD" (5, "A", "C")
      (by decide) (by decide)⟩

/-! ## C8: the constructed tree contains a self-loop at `F` -/

/-- C8: the bundled `OFFICIAL_TREE` contains the node line `F\tM89` twice in
a row (source lines 599-600 of the tree text inside src/YHapLZ.py, the
second one indented one tab deeper).  Parsing that fragment makes the
second `F` a child of the first: `phylo_tree['F'] = 'F'`.  On the resulting
map, `get_ancestors('F') = ['F']` *does* contain `F` itself, refuting the
claimed cycle-freedom for the constructed tree, while the claim's other
half, `get_depth(N) = len(get_ancestors(N))`, still holds there. -/
theorem C8_F_is_its_own_ancestor :
    (parseTreeLines ["\t\t\t\t\t\t\t\t\tF\tM89",
        "\t\t\t\t\t\t\t\t\t\tF\tM89"]).phylo_tree = [("F", "F")] ∧
    get_ancestors [("F", "F")] "F" = ["F"] ∧
    "F" ∈ get_ancestors [("F", "F")] "F" ∧
    get_depth [("F", "F")] "F" = (get_ancestors [("F", "F")] "F").length := by decide

/-! ## C5: zero position overlap gives Unknown with confidence 0 -/

theorem step1Pos_skip (het_mode : String) (sg : Int → Option Geno) (acc : Step1St)
    (pe : Int × List HaploEntry) (h : sg pe.1 = none) :
    step1Pos het_mode sg acc pe = acc := by
  unfold step1Pos
  rw [h]

theorem step1_no_overlap (het_mode : String) (pth : List (Int × List HaploEntry))
    (sg : Int → Option Geno) (h : ∀ p ∈ pth.map Prod.fst, sg p = none) :
    step1 het_mode pth sg = (0, [], []) := by
  unfold step1
  suffices H : ∀ (l : List (Int × List HaploEntry)) (acc : Step1St),
      (∀ p ∈ l.map Prod.fst, sg p = none) →
      l.foldl (step1Pos het_mode sg) acc = acc from H pth (0, [], []) h
  intro l
  induction l with
  | nil => intro acc _; rfl
  | cons pe t ih =>
    intro acc hh
    rw [List.foldl_cons, step1Pos_skip het_mode sg acc pe (hh pe.1 (by simp))]
    exact ih acc fun p hp => hh p (by simp [hp])

/-- C5: for every sample genotype map that shares no genomic position with
the Position Index (`pos_to_haplo`), `classify_sample` returns `Unknown` /
`Unknown` with confidence 0 (and indeed zero supporting SNPs, zero
heterozygous calls, the `'No derived SNPs'` note and empty diagnostics). -/
theorem C5_no_overlap_unknown (phylo_tree : List (String × String))
    (snp_to_info : List (String × (Int × String × String)))
    (pos_to_haplo : List (Int × List HaploEntry)) (het_mode sample : String)
    (sample_geno : Int → Option Geno)
    (h : ∀ p ∈ pos_to_haplo.map Prod.fst, sample_geno p = none) :
    classify_sample phylo_tree snp_to_info pos_to_haplo het_mode sample sample_geno =
      .ok (make_result sample "Unknown" "Unknown" 0 0 0 [] "No derived SNPs" none) := by
  unfold classify_sample
  rw [step1_no_overlap het_mode pos_to_haplo sample_geno h]
  rfl

/-- Witness for `C5_no_overlap_unknown` on a concrete one-position index and
the empty sample map. -/
theorem C5_witness :
    (∀ p ∈ ([((100 : Int), [("R", "M207", "A", "G")])] :
        List (Int × List HaploEntry)).map Prod.fst,
      (fun _ : Int => (none : Option Geno)) p = none) ∧
    classify_sample [("R1a", "R")] [("M207", ((100 : Int), "A", "G"))]
        [((100 : Int), [("R", "M207", "A", "G")])] "moderate" "s2"
        (fun _ => none) =
      .ok (make_result "s2" "Unknown" "Unknown" 0 0 0 [] "No derived SNPs" none) :=
  ⟨fun _ _ => rfl,
   C5_no_overlap_unknown [("R1a", "R")] [("M207", ((100 : Int), "A", "G"))]
     [((100 : Int), [("R", "M207", "A", "G")])] "moderate" "s2" (fun _ => none)
     (fun _ _ => rfl)⟩

/-! ## C9: the ancestor walk terminates on every map, cyclic ones included -/

/-- Distinct keys of the parent map not yet in the seen set: an upper bound
on the iterations the `while` loop of `get_ancestors` can still make. -/
def ancLoopMeasure (phylo_tree : List (String × String)) (seen : List String) : Nat :=
  ((phylo_tree.map Prod.fst).dedup.filter fun k => k ∉ seen).length

theorem length_filter_mono {α : Type} (l : List α) (p q : α → Bool)
    (h : ∀ a ∈ l, p a = true → q a = true) :
    (l.filter p).length ≤ (l.filter q).length := by
  induction l with
  | nil => simp
  | cons x xs ih =>
    have ih' := ih fun a ha => h a (List.mem_cons_of_mem _ ha)
    by_cases hp : p x = true
    · rw [List.filter_cons_of_pos hp, List.filter_cons_of_pos (h x (by simp) hp)]
      simpa using ih'
    · rw [List.filter_cons_of_neg (by simpa using hp)]
      by_cases hq : q x = true
      · rw [List.filter_cons_of_pos hq]
        exact ih'.trans (Nat.le_succ _)
      · rw [List.filter_cons_of_neg (by simpa using hq)]
        exact ih'

theorem length_filter_strict {α : Type} (l : List α) (p q : α → Bool) (cur : α)
    (hc : cur ∈ l) (hp : p cur = false) (hq : q cur = true)
    (h : ∀ a ∈ l, p a = true → q a = true) :
    (l.filter p).length < (l.filter q).length := by
  induction l with
  | nil => simp at hc
  | cons x xs ih =>
    have hmono := length_filter_mono xs p q fun a ha => h a (List.mem_cons_of_mem _ ha)
    rcases List.mem_cons.mp hc with hx | hx
    · subst hx
      rw [List.filter_cons_of_neg (by simp [hp]), List.filter_cons_of_pos hq]
      exact Nat.lt_succ_of_le hmono
    · have ih' := ih hx fun a ha => h a (List.mem_cons_of_mem _ ha)
      by_cases hpx : p x = true
      · rw [List.filter_cons_of_pos hpx, List.filter_cons_of_pos (h x (by simp) hpx)]
        simpa using ih'
      · rw [List.filter_cons_of_neg (by simpa using hpx)]
        by_cases hqx : q x = true
        · rw [List.filter_cons_of_pos hqx]
          exact ih'.trans (Nat.lt_succ_self _)
        · rw [List.filter_cons_of_neg (by simpa using hqx)]
          exact ih'

theorem ancLoopMeasure_dec (phylo_tree : List (String × String)) (cur : String)
    (seen : List String) (hk : cur ∈ phylo_tree.map Prod.fst) (hs : cur ∉ seen) :
    ancLoopMeasure phylo_tree (cur :: seen) < ancLoopMeasure phylo_tree seen := by
  unfold ancLoopMeasure
  apply length_filter_strict _ _ _ cur
  · exact List.mem_dedup.mpr hk
  · simp
  · simpa using hs
  · intro a _ ha
    simp only [decide_eq_true_eq] at ha ⊢
    exact fun hmem => ha (List.mem_cons_of_mem _ hmem)

theorem ancLoop_fuel_agree (phylo_tree : List (String × String)) :
    ∀ (fuel fuel' : Nat) (cur : String) (seen : List String),
      ancLoopMeasure phylo_tree seen < fuel →
      ancLoopMeasure phylo_tree seen < fuel' →
      getAncestorsLoop phylo_tree fuel cur seen =
        getAncestorsLoop phylo_tree fuel' cur seen := by
  intro fuel
  induction fuel with
  | zero => intro fuel' cur seen h _; omega
  | succ f ih =>
    intro fuel' cur seen h h'
    match fuel', h' with
    | fuel'' + 1, h' =>
      show (match dlookup phylo_tree cur with
            | none => []
            | some parent =>
              if cur ∈ seen then []
              else parent :: getAncestorsLoop phylo_tree f parent (cur :: seen)) =
           (match dlookup phylo_tree cur with
            | none => []
            | some parent =>
              if cur ∈ seen then []
              else parent :: getAncestorsLoop phylo_tree fuel'' parent (cur :: seen))
      cases hd : dlookup phylo_tree cur with
      | none => rfl
      | some parent =>
        by_cases hseen : cur ∈ seen
        · simp [hseen]
        · have hk : cur ∈ phylo_tree.map Prod.fst :=
            List.mem_map.mpr ⟨(cur, parent), dlookup_mem _ _ _ hd, rfl⟩
          have hdec := ancLoopMeasure_dec phylo_tree cur seen hk hseen
          simp only [if_neg hseen, List.cons.injEq, true_and]
          exact ih fuel'' parent (cur :: seen) (by omega) (by omega)

theorem ancLoopMeasure_init_le (phylo_tree : List (String × String)) :
    ancLoopMeasure phylo_tree [] ≤ phylo_tree.length := by
  unfold ancLoopMeasure
  calc ((phylo_tree.map Prod.fst).dedup.filter fun k => k ∉ ([] : List String)).length
      ≤ (phylo_tree.map Prod.fst).dedup.length := List.length_filter_le _ _
    _ ≤ (phylo_tree.map Prod.fst).length := (List.dedup_sublist _).length_le
    _ = phylo_tree.length := List.length_map _ _

/-- C9: the `while` loop of `get_ancestors` halts within
`phylo_tree.length + 1` iterations for *every* start node and *every*
child-to-parent map, cyclic maps included — running it with any fuel beyond
the bound gives the same list, so `get_ancestors` (and with it `get_depth`)
is a total function of its inputs. -/
theorem C9_get_ancestors_terminates (phylo_tree : List (String × String))
    (node : String) (fuel : Nat) (h : phylo_tree.length < fuel) :
    getAncestorsLoop phylo_tree fuel node [] = get_ancestors phylo_tree node ∧
    get_depth phylo_tree node = (getAncestorsLoop phylo_tree fuel node []).length := by
  have hbound := ancLoopMeasure_init_le phylo_tree
  have h1 : getAncestorsLoop phylo_tree fuel node [] =
      getAncestorsLoop phylo_tree (phylo_tree.length + 1) node [] :=
    ancLoop_fuel_agree phylo_tree fuel (phylo_tree.length + 1) node [] (by omega) (by omega)
  exact ⟨h1, by rw [get_depth, get_ancestors, ← h1]⟩

/-- Witness for `C9_get_ancestors_terminates` on a concrete *cyclic* map. -/
theorem C9_witness :
    ([("A", "B"), ("B", "A")] : List (String × String)).length < 7 ∧
    (getAncestorsLoop [("A", "B"), ("B", "A")] 7 "A" [] =
        get_ancestors [("A", "B"), ("B", "A")] "A" ∧
      get_depth [("A", "B"), ("B", "A")] "A" =
        (getAncestorsLoop [("A", "B"), ("B", "A")] 7 "A" []).length) :=
  ⟨by decide, C9_get_ancestors_terminates [("A", "B"), ("B", "A")] "A" 7 (by decide)⟩

/-! ## C1: tree construction and cycles -/

/-- C1 counterexample: `_parse_tree` has no failure path at all (no
`StructuralError` exists anywhere in the source), and on the description
`"A\n\tB\n\t\tA"` — whose duplicated node name `A` makes the parent relation
cyclic — it returns the parent map `{B: A, A: B}` normally instead of
failing; on that returned map `A` is its own ancestor. -/
theorem C1_counterexample :
    (parse_tree "A\n\tB\n\t\tA").1 = [("B", "A"), ("A", "B")] ∧
    "A" ∈ get_ancestors (parse_tree "A\n\tB\n\t\tA").1 "A" := by decide

/-- Position of the first occurrence of a name in a list (the rank used to
orient the parent relation produced by a distinct-names parse). -/
def rankIn : List String → String → Nat
  | [], _ => 0
  | x :: xs, a => if x = a then 0 else rankIn xs a + 1

theorem rankIn_append_of_mem (l l' : List String) (a : String) (h : a ∈ l) :
    rankIn (l ++ l') a = rankIn l a := by
  induction l with
  | nil => simp at h
  | cons x xs ih =>
    by_cases hx : x = a
    · simp [rankIn, hx]
    · have hm : a ∈ xs := by
        rcases List.mem_cons.mp h with h' | h'
        · exact absurd h'.symm hx
        · exact h'
      simp [rankIn, hx, ih hm]

theorem rankIn_lt_length (l : List String) (a : String) (h : a ∈ l) :
    rankIn l a < l.length := by
  induction l with
  | nil => simp at h
  | cons x xs ih =>
    by_cases hx : x = a
    · simp [rankIn, hx]
    · have hm : a ∈ xs := by
        rcases List.mem_cons.mp h with h' | h'
        · exact absurd h'.symm hx
        · exact h'
      have := ih hm
      simp only [rankIn, if_neg hx, List.length_cons]
      omega

theorem rankIn_append_self (l : List String) (a : String) (h : a ∉ l) :
    rankIn (l ++ [a]) a = l.length := by
  induction l with
  | nil => simp [rankIn]
  | cons x xs ih =>
    have hx : x ≠ a := by
      rintro rfl
      exact h (List.mem_cons_self _ _)
    simp [rankIn, hx, ih fun hm => h (List.mem_cons_of_mem _ hm)]

/-- The parse invariant: every name on the stack has been defined, and every
parent edge of the phylo map points from a later-defined child to an
earlier-defined parent. -/
def GoodSt (st : ParseSt) (defined : List String) : Prop :=
  (∀ pr ∈ st.stack, pr.2 ∈ defined) ∧
  (∀ pr ∈ st.phylo_tree,
    pr.1 ∈ defined ∧ pr.2 ∈ defined ∧ rankIn defined pr.2 < rankIn defined pr.1)

theorem goodSt_step (st : ParseSt) (indent : Nat) (n : String) (snps : List String)
    (defined : List String) (hg : GoodSt st defined) (hnew : n ∉ defined) :
    GoodSt (parseTreeStep st indent n snps) (defined ++ [n]) := by
  obtain ⟨hstack, hphylo⟩ := hg
  unfold parseTreeStep GoodSt
  cases hh : ((st.stack.dropWhile fun pr => pr.1 ≥ indent).head?) with
  | none =>
    refine ⟨?_, ?_⟩
    · intro pr hpr
      dsimp only at hpr
      rcases List.mem_cons.mp hpr with rfl | hmem
      · simp
      · exact List.mem_append_left _
          (hstack pr ((List.dropWhile_sublist _).subset hmem))
    · intro pr hpr
      dsimp only at hpr
      obtain ⟨h1, h2, h3⟩ := hphylo pr hpr
      exact ⟨List.mem_append_left _ h1, List.mem_append_left _ h2, by
        rw [rankIn_append_of_mem _ _ _ h1, rankIn_append_of_mem _ _ _ h2]; exact h3⟩
  | some pr0 =>
    obtain ⟨i0, parent⟩ := pr0
    have hpdef : parent ∈ defined := by
      have hmem : (i0, parent) ∈ st.stack :=
        (List.dropWhile_sublist _).subset (List.mem_of_mem_head? hh)
      exact hstack _ hmem
    have habsent : dlookup st.phylo_tree n = none := by
      cases hcase : dlookup st.phylo_tree n with
      | none => rfl
      | some v =>
        exact absurd (hphylo _ (dlookup_mem _ _ _ hcase)).1 hnew
    refine ⟨?_, ?_⟩
    · intro pr hpr
      dsimp only at hpr
      rcases List.mem_cons.mp hpr with rfl | hmem
      · simp
      · exact List.mem_append_left _
          (hstack pr ((List.dropWhile_sublist _).subset hmem))
    · intro pr hpr
      dsimp only at hpr
      rw [dset_of_absent _ _ _ habsent] at hpr
      rcases List.mem_append.mp hpr with hold | hnewm
      · obtain ⟨h1, h2, h3⟩ := hphylo pr hold
        exact ⟨List.mem_append_left _ h1, List.mem_append_left _ h2, by
          rw [rankIn_append_of_mem _ _ _ h1, rankIn_append_of_mem _ _ _ h2]; exact h3⟩
      · have hpr' : pr = (n, parent) := by simpa using hnewm
        subst hpr'
        refine ⟨by simp, List.mem_append_left _ hpdef, ?_⟩
        rw [rankIn_append_of_mem _ _ _ hpdef, rankIn_append_self _ _ hnew]
        exact rankIn_lt_length _ _ hpdef

theorem parse_invariant : ∀ (lines : List String) (st : ParseSt) (defined : List String),
    (defined ++ processedNames lines).Nodup → GoodSt st defined →
    GoodSt (lines.foldl parseTreeLine st) (defined ++ processedNames lines) := by
  intro lines
  induction lines with
  | nil =>
    intro st defined _ hg
    simpa [processedNames] using hg
  | cons line ls ih =>
    intro st defined h hg
    rw [List.foldl_cons]
    cases hn : lineNameOf line with
    | none =>
      have hstep : parseTreeLine st line = st := by
        unfold parseTreeLine
        rw [hn]
      have hpn : processedNames (line :: ls) = processedNames ls := by
        simp [processedNames, List.filterMap_cons, hn]
      rw [hpn] at h ⊢
      rw [hstep]
      exact ih st defined h hg
    | some n =>
      have hpn : processedNames (line :: ls) = n :: processedNames ls := by
        simp [processedNames, List.filterMap_cons, hn]
      rw [hpn] at h ⊢
      have hassoc : defined ++ n :: processedNames ls =
          (defined ++ [n]) ++ processedNames ls := by simp
      rw [hassoc] at h ⊢
      have hnodup1 : (defined ++ [n]).Nodup :=
        (List.sublist_append_left _ _).nodup h
      have hnew : n ∉ defined := by
        intro hmem
        exact (List.nodup_append.mp hnodup1).2.2 hmem (by simp)
      have hstep : parseTreeLine st line =
          parseTreeStep st (countTabs line) n
            (if (pySplitC '\t' (pyStrip line)).length ≥ 2 then
              extractSnps (pyStrip ((pySplitC '\t' (pyStrip line)).getD 1 ""))
            else []) := by
        unfold parseTreeLine
        rw [hn]
      rw [hstep]
      exact ih _ (defined ++ [n]) h (goodSt_step st _ n _ defined hg hnew)

/-- A parent map whose edges strictly decrease some rank can never walk back
to its start node. -/
theorem no_self_ancestor_of_rank (phylo_tree : List (String × String))
    (f : String → Nat) (hf : ∀ c p, dlookup phylo_tree c = some p → f p < f c)
    (n : String) : n ∉ get_ancestors phylo_tree n := by
  unfold get_ancestors
  suffices H : ∀ (fuel : Nat) (cur : String) (seen : List String),
      (cur = n ∨ f cur < f n) → n ∉ getAncestorsLoop phylo_tree fuel cur seen from
    H _ n [] (Or.inl rfl)
  intro fuel
  induction fuel with
  | zero =>
    intro cur seen _
    simp [getAncestorsLoop]
  | succ fu ih =>
    intro cur seen hcur
    show n ∉ (match dlookup phylo_tree cur with
      | none => []
      | some parent =>
        if cur ∈ seen then []
        else parent :: getAncestorsLoop phylo_tree fu parent (cur :: seen))
    cases hd : dlookup phylo_tree cur with
    | none => simp
    | some parent =>
      by_cases hseen : cur ∈ seen
      · simp [hseen]
      · have hlt : f parent < f n := by
          have hstep := hf cur parent hd
          rcases hcur with rfl | hc
          · exact hstep
          · omega
        simp only [if_neg hseen, List.mem_cons, not_or]
        refine ⟨?_, ih parent (cur :: seen) (Or.inr hlt)⟩
        rintro rfl
        omega

/-- C1 amended: `_parse_tree` performs no cycle detection and cannot fail
(no `StructuralError` exists); it returns a parent map for every decoded
description.  Whenever the processed node names are pairwise distinct the
returned parent relation is acyclic — no node is its own ancestor — but a
description with duplicated names can make it return a cyclic map (see the
counterexample). -/
theorem C1_parse_tree_acyclic_of_distinct (lines : List String)
    (h : (processedNames lines).Nodup) :
    ∀ node, node ∉ get_ancestors (parseTreeLines lines).phylo_tree node := by
  have hinit : GoodSt initParseSt [] :=
    ⟨fun pr hpr => absurd hpr (List.not_mem_nil _),
     fun pr hpr => absurd hpr (List.not_mem_nil _)⟩
  have hinv := parse_invariant lines initParseSt [] (by simpa using h) hinit
  simp only [List.nil_append] at hinv
  intro node
  apply no_self_ancestor_of_rank _ (rankIn (processedNames lines))
  intro c p hd
  exact (hinv.2 (c, p) (dlookup_mem _ _ _ hd)).2.2

/-- Witness for `C1_parse_tree_acyclic_of_distinct` on a concrete
distinct-names description. -/
theorem C1_witness :
    (processedNames ["A", "\tB", "\t\tC"]).Nodup ∧
    "C" ∉ get_ancestors (parseTreeLines ["A", "\tB", "\t\tC"]).phylo_tree "C" :=
  ⟨by decide,
   C1_parse_tree_acyclic_of_distinct ["A", "\tB", "\t\tC"] (by decide) "C"⟩

/-! ## C2: Step C candidate selection -/

/-- The Step C selection rule exactly as claim C2 words it: sort by (depth
descending, supporting-count descending); the result is the first candidate
whose checked ancestor chain has zero contradictions; only when every
candidate has at least one contradiction, the candidate with the fewest
contradictions, ties broken by the same sort order. -/
def claimStepCHaplo (het_mode : String) (phylo_tree : List (String × String))
    (all_node_status : List (String × NodeStatus)) (main_branch : String)
    (candidates : List Cand) : String :=
  let sorted := sortCandidates candidates
  match sorted.find? (fun c =>
      decide (conflictsOf het_mode all_node_status phylo_tree main_branch c.haplo = [])) with
  | some c => c.haplo
  | none =>
    match sorted.find? (fun c => sorted.all fun d =>
        decide ((conflictsOf het_mode all_node_status phylo_tree main_branch c.haplo).length ≤
          (conflictsOf het_mode all_node_status phylo_tree main_branch d.haplo).length)) with
    | some c => c.haplo
    | none => main_branch

/-- C2 counterexample: main branch `R`; the tree records `R → P1`, the
evidence records node `P1` as ancestral-supported; the candidates are `R1a`
(depth 0) and the branch node `R` itself (depth 1).  Sorted order is
`[R, R1a]`; `R` is the first candidate with zero contradictions in its
checked chain (`P1` is outside the branch), so the claim's rule returns
`R` — but the code re-enters the fallback because the accepted candidate
*is* the main-branch node, counts `P1` against `R` with the fallback's
different rule, and returns `R1a`. -/
theorem C2_counterexample :
    (step4 "moderate" [("R", "P1")] [("P1", ⟨[], ["x"], [], []⟩)] "R"
        [⟨"R1a", 1, ["s1"], 0⟩, ⟨"R", 1, ["s2"], 1⟩]).1 = "R1a" ∧
    claimStepCHaplo "moderate" [("R", "P1")] [("P1", ⟨[], ["x"], [], []⟩)] "R"
        [⟨"R1a", 1, ["s1"], 0⟩, ⟨"R", 1, ["s2"], 1⟩] = "R" ∧
    ("R1a" : String) ≠ "R" := by decide

theorem find?_cons_pos {α : Type} (p : α → Bool) (a : α) (l : List α) (h : p a = true) :
    (a :: l).find? p = some a := by
  simp [List.find?, h]

theorem find?_cons_neg {α : Type} (p : α → Bool) (a : α) (l : List α) (h : p a = false) :
    (a :: l).find? p = l.find? p := by
  simp [List.find?, h]

theorem takeWhile_cons_pos {α : Type} (p : α → Bool) (a : α) (l : List α)
    (h : p a = true) : (a :: l).takeWhile p = a :: l.takeWhile p := by
  simp [List.takeWhile, h]

theorem takeWhile_cons_neg {α : Type} (p : α → Bool) (a : α) (l : List α)
    (h : p a = false) : (a :: l).takeWhile p = [] := by
  simp [List.takeWhile, h]

theorem find?_congr_mem {α : Type} (l : List α) (p q : α → Bool)
    (h : ∀ a ∈ l, p a = q a) : l.find? p = l.find? q := by
  induction l with
  | nil => rfl
  | cons x xs ih =>
    have hx := h x (by simp)
    by_cases hp : p x = true
    · rw [find?_cons_pos p x xs hp, find?_cons_pos q x xs (hx ▸ hp)]
    · have hp' : p x = false := by simpa using hp
      rw [find?_cons_neg p x xs hp', find?_cons_neg q x xs (hx ▸ hp')]
      exact ih fun a ha => h a (List.mem_cons_of_mem _ ha)

theorem exists_min_mem {α : Type} (g : α → Nat) :
    ∀ (l : List α), l ≠ [] → ∃ x ∈ l, ∀ d ∈ l, g x ≤ g d := by
  intro l
  induction l with
  | nil => intro h; exact absurd rfl h
  | cons c cs ih =>
    intro _
    by_cases hcs : cs = []
    · subst hcs
      exact ⟨c, by simp, by simp⟩
    · obtain ⟨x, hx, hmin⟩ := ih hcs
      by_cases hle : g c ≤ g x
      · refine ⟨c, by simp, ?_⟩
        intro d hd
        rcases List.mem_cons.mp hd with rfl | hd'
        · omega
        · exact hle.trans (hmin d hd')
      · refine ⟨x, List.mem_cons_of_mem _ hx, ?_⟩
        intro d hd
        rcases List.mem_cons.mp hd with rfl | hd'
        · omega
        · exact hmin d hd'

/-- The generic shape of the fallback's strict-improvement fold. -/
def argminStep {α β : Type} (g : α → Nat) (pick : α → β)
    (st : β × Option Nat) (c : α) : β × Option Nat :=
  let cc := g c
  let better := match st.2 with | none => true | some m => decide (cc < m)
  if better then (pick c, some cc) else st

theorem fallbackStep_eq_argmin (all_node_status : List (String × NodeStatus))
    (phylo_tree : List (String × String)) :
    fallbackStep all_node_status phylo_tree =
      argminStep (fun c => fallbackConflictCount all_node_status phylo_tree c.haplo)
        (fun c => (c.haplo, c.n_snps, c.snps.take 5)) := rfl

theorem argminFold_below {α β : Type} (g : α → Nat) (pick : α → β) :
    ∀ (l : List α) (b : β) (m : Nat),
      (l.foldl (argminStep g pick) (b, some m)).1 =
        (match l.find? (fun c => decide (g c < m) && l.all fun d => decide (g c ≤ g d)) with
          | some c => pick c
          | none => b) := by
  intro l
  induction l with
  | nil => intro b m; rfl
  | cons c cs ih =>
    intro b m
    rw [List.foldl_cons]
    by_cases hcm : g c < m
    · have hstep : argminStep g pick (b, some m) c = (pick c, some (g c)) := by
        unfold argminStep
        simp [hcm]
      rw [hstep, ih]
      by_cases hall : cs.all (fun d => decide (g c ≤ g d)) = true
      · have hnone : cs.find?
            (fun x => decide (g x < g c) && cs.all fun d => decide (g x ≤ g d)) = none := by
          rw [List.find?_eq_none]
          intro x hx
          have hle := List.all_eq_true.mp hall x hx
          simp only [decide_eq_true_eq] at hle
          simp only [Bool.and_eq_true, decide_eq_true_eq, not_and]
          intro hlt
          omega
        rw [hnone]
        have hcp : (decide (g c < m) && (c :: cs).all fun d => decide (g c ≤ g d)) = true := by
          simp [hcm, List.all_cons, hall]
        rw [find?_cons_pos
          (fun x => decide (g x < m) && (c :: cs).all fun d => decide (g x ≤ g d)) c cs hcp]
      · have hall' : cs.all (fun d => decide (g c ≤ g d)) = false := by simpa using hall
        have hex : ∃ d ∈ cs, g d < g c := by
          by_contra hno
          push_neg at hno
          rw [List.all_eq_true] at hall
          exact hall fun d hd => by
            have := hno d hd
            simp only [decide_eq_true_eq]
            omega
        obtain ⟨d0, hd0, hd0lt⟩ := hex
        have hcp : (decide (g c < m) && (c :: cs).all fun d => decide (g c ≤ g d)) = false := by
          simp [List.all_cons, hall']
        rw [find?_cons_neg
          (fun x => decide (g x < m) && (c :: cs).all fun d => decide (g x ≤ g d)) c cs hcp]
        have hcongr : cs.find?
              (fun x => decide (g x < g c) && cs.all fun d => decide (g x ≤ g d)) =
            cs.find?
              (fun x => decide (g x < m) && (c :: cs).all fun d => decide (g x ≤ g d)) := by
          apply find?_congr_mem
          intro a _
          by_cases hacs : cs.all (fun d => decide (g a ≤ g d)) = true
          · have halt : g a < g c := by
              have := List.all_eq_true.mp hacs d0 hd0
              simp only [decide_eq_true_eq] at this
              omega
            have ham : g a < m := by omega
            have hale : g a ≤ g c := by omega
            simp [List.all_cons, hacs, halt, ham, hale]
          · have hacs' : cs.all (fun d => decide (g a ≤ g d)) = false := by simpa using hacs
            simp [List.all_cons, hacs']
        rw [hcongr]
        have hsome : ∃ cm, cs.find?
            (fun x => decide (g x < m) && (c :: cs).all fun d => decide (g x ≤ g d)) =
              some cm := by
          have hcsne : cs ≠ [] := by
            intro hn
            rw [hn] at hd0
            simp at hd0
          obtain ⟨x, hx, hmin⟩ := exists_min_mem g cs hcsne
          have hne : cs.find?
              (fun x => decide (g x < m) && (c :: cs).all fun d => decide (g x ≤ g d)) ≠
                none := by
            rw [Ne, List.find?_eq_none]
            push_neg
            refine ⟨x, hx, ?_⟩
            have hxd0 : g x ≤ g d0 := hmin d0 hd0
            simp only [List.all_cons, Bool.and_eq_true, decide_eq_true_eq]
            refine ⟨by omega, by omega, ?_⟩
            rw [List.all_eq_true]
            intro d hd
            simp only [decide_eq_true_eq]
            exact hmin d hd
          exact Option.ne_none_iff_exists'.mp hne
        obtain ⟨cm, hcm2⟩ := hsome
        rw [hcm2]
    · have hstep : argminStep g pick (b, some m) c = (b, some m) := by
        unfold argminStep
        simp [hcm]
      rw [hstep, ih]
      have hcp : (decide (g c < m) && (c :: cs).all fun d => decide (g c ≤ g d)) = false := by
        simp [hcm]
      rw [find?_cons_neg
        (fun x => decide (g x < m) && (c :: cs).all fun d => decide (g x ≤ g d)) c cs hcp]
      have hcongr : cs.find?
            (fun x => decide (g x < m) && cs.all fun d => decide (g x ≤ g d)) =
          cs.find?
            (fun x => decide (g x < m) && (c :: cs).all fun d => decide (g x ≤ g d)) := by
        apply find?_congr_mem
        intro a _
        by_cases ham : g a < m
        · have hale : g a ≤ g c := by omega
          simp [List.all_cons, ham, hale]
        · simp [ham]
      rw [hcongr]

theorem argminFold_run {α β : Type} (g : α → Nat) (pick : α → β)
    (l : List α) (b : β) (hl : l ≠ []) :
    (l.foldl (argminStep g pick) (b, none)).1 =
      (match l.find? (fun c => l.all fun d => decide (g c ≤ g d)) with
        | some c => pick c
        | none => b) := by
  match l, hl with
  | c :: cs, _ =>
    rw [List.foldl_cons]
    have hstep : argminStep g pick (b, none) c = (pick c, some (g c)) := by
      unfold argminStep
      simp
    rw [hstep, argminFold_below]
    by_cases hall : cs.all (fun d => decide (g c ≤ g d)) = true
    · have hnone : cs.find?
          (fun x => decide (g x < g c) && cs.all fun d => decide (g x ≤ g d)) = none := by
        rw [List.find?_eq_none]
        intro x hx
        have hle := List.all_eq_true.mp hall x hx
        simp only [decide_eq_true_eq] at hle
        simp only [Bool.and_eq_true, decide_eq_true_eq, not_and]
        intro hlt
        omega
      rw [hnone]
      have hcp : ((c :: cs).all fun d => decide (g c ≤ g d)) = true := by
        simp [List.all_cons, hall]
      rw [find?_cons_pos (fun x => (c :: cs).all fun d => decide (g x ≤ g d)) c cs hcp]
    · have hall' : cs.all (fun d => decide (g c ≤ g d)) = false := by simpa using hall
      have hex : ∃ d ∈ cs, g d < g c := by
        by_contra hno
        push_neg at hno
        rw [List.all_eq_true] at hall
        exact hall fun d hd => by
          have := hno d hd
          simp only [decide_eq_true_eq]
          omega
      obtain ⟨d0, hd0, hd0lt⟩ := hex
      have hcp : ((c :: cs).all fun d => decide (g c ≤ g d)) = false := by
        simp [List.all_cons, hall']
      rw [find?_cons_neg (fun x => (c :: cs).all fun d => decide (g x ≤ g d)) c cs hcp]
      have hcongr : cs.find?
            (fun x => decide (g x < g c) && cs.all fun d => decide (g x ≤ g d)) =
          cs.find? (fun x => (c :: cs).all fun d => decide (g x ≤ g d)) := by
        apply find?_congr_mem
        intro a _
        by_cases hacs : cs.all (fun d => decide (g a ≤ g d)) = true
        · have halt : g a < g c := by
            have := List.all_eq_true.mp hacs d0 hd0
            simp only [decide_eq_true_eq] at this
            omega
          have hale : g a ≤ g c := by omega
          simp [List.all_cons, hacs, halt, hale]
        · have hacs' : cs.all (fun d => decide (g a ≤ g d)) = false := by simpa using hacs
          simp [List.all_cons, hacs']
      rw [hcongr]
      have hsome : ∃ cm, cs.find? (fun x => (c :: cs).all fun d => decide (g x ≤ g d)) =
          some cm := by
        have hcsne : cs ≠ [] := by
          intro hn
          rw [hn] at hd0
          simp at hd0
        obtain ⟨x, hx, hmin⟩ := exists_min_mem g cs hcsne
        have hne : cs.find? (fun x => (c :: cs).all fun d => decide (g x ≤ g d)) ≠ none := by
          rw [Ne, List.find?_eq_none]
          push_neg
          refine ⟨x, hx, ?_⟩
          have hxd0 : g x ≤ g d0 := hmin d0 hd0
          simp only [List.all_cons, Bool.and_eq_true, decide_eq_true_eq]
          refine ⟨by omega, ?_⟩
          rw [List.all_eq_true]
          intro d hd
          simp only [decide_eq_true_eq]
          exact hmin d hd
        exact Option.ne_none_iff_exists'.mp hne
      obtain ⟨cm, hcm2⟩ := hsome
      rw [hcm2]

theorem mainLoop_eq (het_mode : String) (all_node_status : List (String × NodeStatus))
    (phylo_tree : List (String × String)) (main_branch : String) :
    ∀ l : List Cand,
      mainLoop het_mode all_node_status phylo_tree main_branch l =
        (l.find? (fun c =>
            decide (conflictsOf het_mode all_node_status phylo_tree main_branch c.haplo = [])),
         ((l.takeWhile fun c =>
             !decide (conflictsOf het_mode all_node_status phylo_tree main_branch c.haplo = [])).map
            (fun c => conflictsOf het_mode all_node_status phylo_tree main_branch c.haplo)).flatten) := by
  intro l
  induction l with
  | nil => rfl
  | cons c cs ih =>
    unfold mainLoop
    by_cases hc : conflictsOf het_mode all_node_status phylo_tree main_branch c.haplo = []
    · rw [if_pos hc,
        find?_cons_pos (fun c =>
          decide (conflictsOf het_mode all_node_status phylo_tree main_branch c.haplo = []))
          c cs (by simp [hc]),
        takeWhile_cons_neg (fun c =>
          !decide (conflictsOf het_mode all_node_status phylo_tree main_branch c.haplo = []))
          c cs (by simp [hc])]
      rfl
    · rw [if_neg hc, ih,
        find?_cons_neg (fun c =>
          decide (conflictsOf het_mode all_node_status phylo_tree main_branch c.haplo = []))
          c cs (by simp [hc]),
        takeWhile_cons_pos (fun c =>
          !decide (conflictsOf het_mode all_node_status phylo_tree main_branch c.haplo = []))
          c cs (by simp [hc])]
      rfl

theorem insertDesc_length (c : Cand) : ∀ l : List Cand,
    (insertDesc c l).length = l.length + 1 := by
  intro l
  induction l with
  | nil => rfl
  | cons d t ih =>
    unfold insertDesc
    by_cases h : candKeyGE c d = true
    · simp [h]
    · simp only [Bool.not_eq_true] at h
      simp [h, ih]

theorem sortCandidates_length (l : List Cand) : (sortCandidates l).length = l.length := by
  induction l with
  | nil => rfl
  | cons c cs ih =>
    unfold sortCandidates at ih ⊢
    rw [List.foldr_cons, insertDesc_length, ih]
    rfl

theorem sortCandidates_ne_nil (l : List Cand) (h : l ≠ []) : sortCandidates l ≠ [] := by
  intro hn
  have := sortCandidates_length l
  rw [hn] at this
  exact h (List.length_eq_zero.mp this.symm)

/-- Step 4 as the code actually behaves, in declarative terms: sort (stable,
by depth then count, descending); if the first zero-contradiction candidate
exists and is not the main-branch node itself, it is the result; otherwise
the result is the first candidate minimising the fallback conflict count —
which counts, over the candidate's *entire* ancestor chain and with no
heterozygous leniency, every ancestor that is ancestral-supported and not
derived-supported; the recorded conflicts are those of the candidates
preceding the first zero-contradiction one. -/
def codeStepCDescr (het_mode : String) (phylo_tree : List (String × String))
    (all_node_status : List (String × NodeStatus)) (main_branch : String)
    (candidates : List Cand) : String × Nat × List String × List String :=
  let sorted := sortCandidates candidates
  let fb : String × Nat × List String :=
    match sorted.find? (fun c => sorted.all fun d =>
        decide (fallbackConflictCount all_node_status phylo_tree c.haplo ≤
          fallbackConflictCount all_node_status phylo_tree d.haplo)) with
    | some c => (c.haplo, c.n_snps, c.snps.take 5)
    | none => (main_branch, 0, [])
  let chosen : String × Nat × List String :=
    match sorted.find? (fun c =>
        decide (conflictsOf het_mode all_node_status phylo_tree main_branch c.haplo = [])) with
    | some c => if c.haplo = main_branch then fb else (c.haplo, c.n_snps, c.snps.take 5)
    | none => fb
  (chosen.1, chosen.2.1, chosen.2.2,
   ((sorted.takeWhile fun c =>
       !decide (conflictsOf het_mode all_node_status phylo_tree main_branch c.haplo = [])).map
      (fun c => conflictsOf het_mode all_node_status phylo_tree main_branch c.haplo)).flatten)

/-- C2 amended: Step 4 of `classify_sample` equals the declarative
description `codeStepCDescr` for all inputs — the claim's rule holds
unchanged when the first zero-contradiction candidate is a proper
descendant of the main branch, but when that candidate is the main-branch
node itself, or no candidate is contradiction-free, the code instead picks
the first candidate minimising the *fallback* conflict count, whose notion
of contradiction differs from the claim's (full chain, no heterozygous
leniency). -/
theorem C2_step4_characterisation (het_mode : String)
    (phylo_tree : List (String × String))
    (all_node_status : List (String × NodeStatus)) (main_branch : String)
    (candidates : List Cand) :
    step4 het_mode phylo_tree all_node_status main_branch candidates =
      codeStepCDescr het_mode phylo_tree all_node_status main_branch candidates := by
  unfold step4 codeStepCDescr
  dsimp only
  rw [mainLoop_eq]
  dsimp only
  cases hfind : (sortCandidates candidates).find? (fun c =>
      decide (conflictsOf het_mode all_node_status phylo_tree main_branch c.haplo = [])) with
  | some c =>
    have hne : candidates ≠ [] := by
      intro hnil
      rw [hnil] at hfind
      simp [sortCandidates, List.find?] at hfind
    by_cases hcm : c.haplo = main_branch
    · rw [if_pos (by simp [hcm, hne])]
      unfold fallbackLoop
      rw [fallbackStep_eq_argmin,
        argminFold_run _ _ _ _ (sortCandidates_ne_nil _ hne)]
      cases hmin : (sortCandidates candidates).find? (fun x =>
          (sortCandidates candidates).all fun d =>
            decide (fallbackConflictCount all_node_status phylo_tree x.haplo ≤
              fallbackConflictCount all_node_status phylo_tree d.haplo)) with
      | some cm => simp [hcm]
      | none =>
        exfalso
        obtain ⟨x, hx, hminx⟩ :=
          exists_min_mem (fun x => fallbackConflictCount all_node_status phylo_tree x.haplo)
            (sortCandidates candidates) (sortCandidates_ne_nil _ hne)
        have := List.find?_eq_none.mp hmin x hx
        apply this
        rw [List.all_eq_true]
        intro d hd
        simp only [decide_eq_true_eq]
        exact hminx d hd
    · simp [hcm]
  | none =>
    by_cases hnil : candidates = []
    · subst hnil
      rw [if_neg (by simp)]
      rfl
    · rw [if_pos (by simp [hnil])]
      unfold fallbackLoop
      rw [fallbackStep_eq_argmin,
        argminFold_run _ _ _ _ (sortCandidates_ne_nil _ hnil)]
      cases (sortCandidates candidates).find? (fun c =>
          (sortCandidates candidates).all fun d =>
            decide (fallbackConflictCount all_node_status phylo_tree c.haplo ≤
              fallbackConflictCount all_node_status phylo_tree d.haplo)) with
      | some cm => rfl
      | none => rfl

/-! ## C4: `classify_sample` is total -/

theorem findDirectBranch_ok (het_mode : String) (bds : List (String × GenotypeStatus))
    (bc : List (String × List Cand)) :
    ∀ l : List String, (∀ b ∈ l, (dlookup MAIN_BRANCH_DEFINING_SNPS b).isSome = true) →
      ∃ r, findDirectBranch het_mode bds bc l = .ok r := by
  intro l
  induction l with
  | nil => intro _; exact ⟨none, rfl⟩
  | cons b rest ih =>
    intro h
    unfold findDirectBranch
    by_cases hc : (pyTruthyB (is_derivedOpt het_mode (dlookup bds b)) && dhas bc b) = true
    · rw [if_pos hc]
      have hsome := h b (by simp)
      cases hd : dlookup MAIN_BRANCH_DEFINING_SNPS b with
      | none => rw [hd] at hsome; simp at hsome
      | some snp => exact ⟨some (b, snp ++ " derived"), rfl⟩
    · rw [if_neg hc]
      exact ih fun x hx => h x (List.mem_cons_of_mem _ hx)

/-- C4: `classify_sample` never raises for any sample genotype map (and any
classifier reference state): the one unguarded dict subscript it contains —
`MAIN_BRANCH_DEFINING_SNPS[branch]` inside the main-branch note — is only
reached for members of `MAIN_BRANCHES`, all of which the table defines, so
every run ends in a complete Classification Result (`Except.ok`). -/
theorem C4_classify_sample_total (phylo_tree : List (String × String))
    (snp_to_info : List (String × (Int × String × String)))
    (pos_to_haplo : List (Int × List HaploEntry)) (het_mode sample : String)
    (sample_geno : Int → Option Geno) :
    (classify_sample phylo_tree snp_to_info pos_to_haplo het_mode sample
      sample_geno).isOk = true := by
  unfold classify_sample
  dsimp only
  split
  · rfl
  · split
    · rfl
    · obtain ⟨r, hr⟩ := findDirectBranch_ok het_mode
        (branchDirectStatus snp_to_info sample_geno)
        (step2 phylo_tree (step1 het_mode pos_to_haplo sample_geno).2.2)
        MAIN_BRANCHES (by decide)
      rw [hr]
      dsimp only
      split <;> rfl

end YHapLZ
